import Mathlib

/-!
# Verification of the `garble` data-garbling library

Shallow embedding of the Rust crate `garble` (fault-injection data garbling).

Modelling conventions:
* Machine integers are `Nat` (unsigned) / `Int` (signed) together with an
  explicit width; overflow checks are written out where the Rust source uses
  the plain `+` operator (which panics on overflow in debug builds).
* `f32`/`f64` values are carried as opaque bit patterns (`Nat`); the garbling
  paths proved about never interpret the bits arithmetically, so the float
  arithmetic of the reference strategy is a parameter of the model.
* A strategy (`Garbler` trait) method `fn garble_t(&mut self, t) -> t` becomes
  a function `σ → t → Option (t × σ)`: explicit state passing for `&mut self`,
  `Option` because a Rust method may panic (e.g. `gen_bool` on a rate outside
  `[0,1]`, or `+` overflowing).
* `usize`/`isize` are modelled as 64-bit (a 64-bit target).
-/

/-- Unsigned integer widths with a `Garble` impl (`u8` … `usize`). -/
inductive UWidth where
  | w8 | w16 | w32 | w64 | w128 | wsize
deriving DecidableEq, Repr

/-- Signed integer widths with a `Garble` impl (`i8` … `isize`). -/
inductive IWidth where
  | w8 | w16 | w32 | w64 | w128 | wsize
deriving DecidableEq, Repr

/-- Bit width of an unsigned type (`usize` modelled as 64-bit). -/
def UWidth.bits : UWidth → Nat
  | .w8 => 8 | .w16 => 16 | .w32 => 32 | .w64 => 64 | .w128 => 128 | .wsize => 64

/-- Bit width of a signed type (`isize` modelled as 64-bit). -/
def IWidth.bits : IWidth → Nat
  | .w8 => 8 | .w16 => 16 | .w32 => 32 | .w64 => 64 | .w128 => 128 | .wsize => 64

/-- The `Garbler` trait: one perturbation method per leaf type
(`garble_bool`, `garble_u8`, …, `garble_str`), each `(&mut self, T) -> T`.
State `σ` is the strategy's internal state (`&mut self`); `Option` models
a possible panic inside the method.  Strings are lists of Unicode scalar
values, floats are bit patterns. -/
structure Garbler (σ : Type) where
  garble_bool : σ → Bool → Option (Bool × σ)
  garble_char : σ → Nat → Option (Nat × σ)
  garble_u8 : σ → Nat → Option (Nat × σ)
  garble_u16 : σ → Nat → Option (Nat × σ)
  garble_u32 : σ → Nat → Option (Nat × σ)
  garble_u64 : σ → Nat → Option (Nat × σ)
  garble_u128 : σ → Nat → Option (Nat × σ)
  garble_usize : σ → Nat → Option (Nat × σ)
  garble_i8 : σ → Int → Option (Int × σ)
  garble_i16 : σ → Int → Option (Int × σ)
  garble_i32 : σ → Int → Option (Int × σ)
  garble_i64 : σ → Int → Option (Int × σ)
  garble_i128 : σ → Int → Option (Int × σ)
  garble_isize : σ → Int → Option (Int × σ)
  garble_f32 : σ → Nat → Option (Nat × σ)
  garble_f64 : σ → Nat → Option (Nat × σ)
  garble_str : σ → List Nat → Option (List Nat × σ)

/-- Dispatch of the `impl_type!` macro for unsigned integers: each width's
`Garble` impl forwards to the matching `garble_<type>` strategy method. -/
def Garbler.garbleU {σ : Type} (g : Garbler σ) : UWidth → σ → Nat → Option (Nat × σ)
  | .w8 => g.garble_u8
  | .w16 => g.garble_u16
  | .w32 => g.garble_u32
  | .w64 => g.garble_u64
  | .w128 => g.garble_u128
  | .wsize => g.garble_usize

/-- Dispatch of the `impl_type!` macro for signed integers. -/
def Garbler.garbleI {σ : Type} (g : Garbler σ) : IWidth → σ → Int → Option (Int × σ)
  | .w8 => g.garble_i8
  | .w16 => g.garble_i16
  | .w32 => g.garble_i32
  | .w64 => g.garble_i64
  | .w128 => g.garble_i128
  | .wsize => g.garble_isize

/-- Deep embedding of the values the `Garble` trait is implemented for
(the fragment the claims under verification need): leaves (`bool`, the
integer widths, floats as bit patterns, `char` as a Unicode scalar value,
`String` as a list of scalar values), the `NoGarble` opt-out wrapper,
`Option`, `Result`, sequences (`Vec`/`VecDeque`/`LinkedList`, whose three
impls expand to the identical iterator-map body), maps (`BTreeMap`/`HashMap`,
entries in the map's iteration order), `NonZero*` wrappers and `CString`
(bytes without the nul terminator, as handed to the impl by `to_bytes`). -/
inductive GValue where
  | bool (b : Bool)
  | uint (w : UWidth) (n : Nat)
  | int (w : IWidth) (n : Int)
  | float32 (bits : Nat)
  | float64 (bits : Nat)
  | char (c : Nat)
  | str (cs : List Nat)
  | noGarble (v : GValue)
  | optNone
  | optSome (v : GValue)
  | resOk (v : GValue)
  | resErr (e : GValue)
  | list (vs : List GValue)
  | mp (es : List (GValue × GValue))
  | nonZeroU (w : UWidth) (n : Nat)
  | nonZeroI (w : IWidth) (n : Int)
  | cstr (bytes : List Nat)
deriving Repr

/-- `CString::new(bytes).unwrap()`: fails (panics) iff `bytes` contains an
interior nul byte. -/
def cstringNew (bytes : List Nat) : Option (List Nat) :=
  if 0 ∈ bytes then none else some bytes

mutual

/-- `Garble::garble`: one case per `impl Garble for …` of the crate.
Leaves forward to the strategy's `garble_<type>` method; `NoGarble<T>`
returns the inner value without touching the strategy; `Option`/`Result`
recurse into the inhabited side; sequences map `garble` over elements in
order; maps garble key then value per entry in iteration order; `NonZero*`
garbles the underlying integer and rebinds `0` to `1`; `CString` garbles
each byte, rebinds `0` to `0x3F`, and rebuilds with `CString::new(..).unwrap()`. -/
def garble {σ : Type} (g : Garbler σ) (s : σ) : GValue → Option (GValue × σ)
  | .bool b => (g.garble_bool s b).map (fun p => (.bool p.1, p.2))
  | .uint w n => (g.garbleU w s n).map (fun p => (.uint w p.1, p.2))
  | .int w n => (g.garbleI w s n).map (fun p => (.int w p.1, p.2))
  | .float32 bits => (g.garble_f32 s bits).map (fun p => (.float32 p.1, p.2))
  | .float64 bits => (g.garble_f64 s bits).map (fun p => (.float64 p.1, p.2))
  | .char c => (g.garble_char s c).map (fun p => (.char p.1, p.2))
  | .str cs => (g.garble_str s cs).map (fun p => (.str p.1, p.2))
  | .noGarble v => some (v, s)
  | .optNone => some (.optNone, s)
  | .optSome v => (garble g s v).map (fun p => (.optSome p.1, p.2))
  | .resOk v => (garble g s v).map (fun p => (.resOk p.1, p.2))
  | .resErr e => (garble g s e).map (fun p => (.resErr p.1, p.2))
  | .list vs => (garbleList g s vs).map (fun p => (.list p.1, p.2))
  | .mp es => (garbleEntries g s es).map (fun p => (.mp p.1, p.2))
  | .nonZeroU w n =>
      (g.garbleU w s n).map (fun p => (.nonZeroU w (if p.1 = 0 then 1 else p.1), p.2))
  | .nonZeroI w n =>
      (g.garbleI w s n).map (fun p => (.nonZeroI w (if p.1 = 0 then 1 else p.1), p.2))
  | .cstr bytes =>
      match garbleCBytes g s bytes with
      | none => none
      | some (out, s') => (cstringNew out).map (fun c => (.cstr c, s'))

/-- `self.into_iter().map(|v| v.garble(garbler)).collect()`: the shared body
of the `Vec`/`VecDeque`/`LinkedList` impls, elements in ascending order,
the strategy threaded left to right. -/
def garbleList {σ : Type} (g : Garbler σ) (s : σ) : List GValue → Option (List GValue × σ)
  | [] => some ([], s)
  | v :: vs =>
      match garble g s v with
      | none => none
      | some (v', s') =>
          match garbleList g s' vs with
          | none => none
          | some (vs', s'') => some (v' :: vs', s'')

/-- `self.into_iter().map(|(k, v)| (k.garble(garbler), v.garble(garbler)))`:
the shared body of the map impls, entries in iteration order, key before
value (Rust evaluates tuple fields left to right). -/
def garbleEntries {σ : Type} (g : Garbler σ) (s : σ) :
    List (GValue × GValue) → Option (List (GValue × GValue) × σ)
  | [] => some ([], s)
  | (k, v) :: es =>
      match garble g s k with
      | none => none
      | some (k', s') =>
          match garble g s' v with
          | none => none
          | some (v', s'') =>
              match garbleEntries g s'' es with
              | none => none
              | some (es', s''') => some ((k', v') :: es', s''')

/-- Byte loop of the `CString` impl: each byte through `garble_u8`
(via `b.garble(garbler)`), a garbled byte equal to `0` replaced by `0x3F`. -/
def garbleCBytes {σ : Type} (g : Garbler σ) (s : σ) : List Nat → Option (List Nat × σ)
  | [] => some ([], s)
  | b :: bs =>
      match g.garble_u8 s b with
      | none => none
      | some (b', s') =>
          match garbleCBytes g s' bs with
          | none => none
          | some (bs', s'') => some ((if b' = 0 then 0x3F else b') :: bs', s'')

end

/-!
## The reference strategy `SimpleGarbler`

`SimpleGarbler { rate: f64, rng: ThreadRng }`.  The RNG is modelled by two
abstract draw streams indexed by a counter `k` of draws consumed so far:
`draws i` is the uniform `[0,1)` real consumed by `gen_bool` (as a rational),
`next i` is the raw value consumed by `rng.gen()` (for an integer draw the
value of the drawn machine integer is `next i % 2^bits`; for a `char` or
float draw the drawn scalar/bit pattern is `next i` itself).  The float
squaring `v.powf(2.0)` acts on bit patterns through an uninterpreted
parameter `sq32`/`sq64` of the model; no claim depends on it. -/
structure SimpleGarbler where
  rate : ℚ
  draws : Nat → ℚ
  next : Nat → Nat
  k : Nat

/-- `SimpleGarbler::new(rate)`: stores the rate as given — no clamping, no
rejection — and a fresh RNG. -/
def SimpleGarbler.new (rate : ℚ) (draws : Nat → ℚ) (next : Nat → Nat) : SimpleGarbler :=
  { rate := rate, draws := draws, next := next, k := 0 }

/-- `fn should_garble(&mut self) -> bool { self.rng.gen_bool(self.rate) }`.
`gen_bool(p)` panics unless `0 ≤ p ≤ 1` (`Bernoulli::new` rejects the rate),
otherwise it reports whether the consumed uniform `[0,1)` draw fell below
`p`. -/
def SimpleGarbler.shouldGarble (s : SimpleGarbler) : Option (Bool × SimpleGarbler) :=
  if 0 ≤ s.rate ∧ s.rate ≤ 1 then
    some (decide (s.draws s.k < s.rate), { s with k := s.k + 1 })
  else none

/-- `self.rng.gen()`: consume one raw draw. -/
def SimpleGarbler.gen (s : SimpleGarbler) : Nat × SimpleGarbler :=
  (s.next s.k, { s with k := s.k + 1 })

/-- Two's-complement reading of a `bits`-wide draw as a signed integer. -/
def toSigned (bits d : Nat) : Int :=
  if d < 2 ^ (bits - 1) then (d : Int) else (d : Int) - 2 ^ bits

/-- The `impl_func!` body of `SimpleGarbler` for an unsigned integer type:
if `should_garble()`, draw a value of the same width; if the draw equals the
input, substitute `value + 1` — written with the plain `+` operator, which
panics on overflow in debug builds (`none` here); otherwise keep the input. -/
def simpleUint (bits : Nat) (s : SimpleGarbler) (v : Nat) : Option (Nat × SimpleGarbler) :=
  match s.shouldGarble with
  | none => none
  | some (b, s') =>
      if b then
        let (d0, s'') := s'.gen
        let d := d0 % 2 ^ bits
        if d = v then
          if v + 1 < 2 ^ bits then some (v + 1, s'') else none
        else some (d, s'')
      else some (v, s')

/-- The `impl_func!` body for a signed integer type (same shape; `value + 1`
overflows exactly at the type's maximum). -/
def simpleInt (bits : Nat) (s : SimpleGarbler) (v : Int) : Option (Int × SimpleGarbler) :=
  match s.shouldGarble with
  | none => none
  | some (b, s') =>
      if b then
        let (d0, s'') := s'.gen
        let d := toSigned bits (d0 % 2 ^ bits)
        if d = v then
          if v + 1 < 2 ^ (bits - 1) then some (v + 1, s'') else none
        else some (d, s'')
      else some (v, s')

/-- The `impl_func!` body for a float type: on a perturbation whose draw
equals the input, substitute `value.powf(2.0)` (total, embedded as the
uninterpreted bit-pattern map `sq`). -/
def simpleFloat (sq : Nat → Nat) (s : SimpleGarbler) (v : Nat) : Option (Nat × SimpleGarbler) :=
  match s.shouldGarble with
  | none => none
  | some (b, s') =>
      if b then
        let (d, s'') := s'.gen
        if d = v then some (sq v, s'') else some (d, s'')
      else some (v, s')

/-- Is `n` a Unicode scalar value (`char::from_u32` succeeds)? -/
def isScalar (n : Nat) : Bool :=
  n < 0xD800 || (0xE000 ≤ n && n ≤ 0x10FFFF)

/-- `|v| std::char::from_u32(v as u32 + 1).unwrap_or('g')`. -/
def charSucc (v : Nat) : Nat :=
  if isScalar (v + 1) then v + 1 else 103

/-- The `impl_func!` body for `char`: a drawn `char` is a scalar consumed
from the raw stream; if it equals the input, substitute the next scalar
(fallback `'g'`). -/
def simpleChar (s : SimpleGarbler) (v : Nat) : Option (Nat × SimpleGarbler) :=
  match s.shouldGarble with
  | none => none
  | some (b, s') =>
      if b then
        let (d, s'') := s'.gen
        if d = v then some (charSucc v, s'') else some (d, s'')
      else some (v, s')

/-- `SimpleGarbler::garble_str`: per character, if `should_garble()` replace
it with a drawn `char`, else keep it; collect.  An empty string consumes no
draws and makes no perturbation decision. -/
def simpleStr (s : SimpleGarbler) : List Nat → Option (List Nat × SimpleGarbler)
  | [] => some ([], s)
  | c :: cs =>
      match s.shouldGarble with
      | none => none
      | some (b, s') =>
          let (c', s'') := if b then s'.gen else (c, s')
          match simpleStr s'' cs with
          | none => none
          | some (cs', s''') => some (c' :: cs', s''')

/-- `impl Garbler for SimpleGarbler`: `garble_bool` returns
`self.should_garble() != value`; the numeric/char/str methods are the
`impl_func!` bodies above; `usize`/`isize` are 64-bit. -/
def SimpleGarbler.garbler (sq32 sq64 : Nat → Nat) : Garbler SimpleGarbler where
  garble_bool := fun s v => (SimpleGarbler.shouldGarble s).map (fun p => (p.1 != v, p.2))
  garble_char := simpleChar
  garble_u8 := simpleUint 8
  garble_u16 := simpleUint 16
  garble_u32 := simpleUint 32
  garble_u64 := simpleUint 64
  garble_u128 := simpleUint 128
  garble_usize := simpleUint 64
  garble_i8 := simpleInt 8
  garble_i16 := simpleInt 16
  garble_i32 := simpleInt 32
  garble_i64 := simpleInt 64
  garble_i128 := simpleInt 128
  garble_isize := simpleInt 64
  garble_f32 := simpleFloat sq32
  garble_f64 := simpleFloat sq64
  garble_str := simpleStr

/-- The stateless `ZeroGarbler` of the test crate (`garble_test`): every
integer to `0`, bools to `false`, chars to `' '`, floats to `0.0`
(bit pattern `0`), strings to the empty string. -/
def ZeroGarbler : Garbler Unit where
  garble_bool := fun s _ => some (false, s)
  garble_char := fun s _ => some (32, s)
  garble_u8 := fun s _ => some (0, s)
  garble_u16 := fun s _ => some (0, s)
  garble_u32 := fun s _ => some (0, s)
  garble_u64 := fun s _ => some (0, s)
  garble_u128 := fun s _ => some (0, s)
  garble_usize := fun s _ => some (0, s)
  garble_i8 := fun s _ => some (0, s)
  garble_i16 := fun s _ => some (0, s)
  garble_i32 := fun s _ => some (0, s)
  garble_i64 := fun s _ => some (0, s)
  garble_i128 := fun s _ => some (0, s)
  garble_isize := fun s _ => some (0, s)
  garble_f32 := fun s _ => some (0, s)
  garble_f64 := fun s _ => some (0, s)
  garble_str := fun s _ => some ([], s)

/-- One record in the call log of an observing strategy: which per-leaf
method was invoked, with its argument. -/
inductive LeafCall where
  | cBool (b : Bool)
  | cChar (c : Nat)
  | cU (w : UWidth) (n : Nat)
  | cI (w : IWidth) (n : Int)
  | cF32 (bits : Nat)
  | cF64 (bits : Nat)
  | cStr (cs : List Nat)
deriving DecidableEq, Repr

/-- A strategy that records every per-leaf call it receives (its state is
the call log) and returns each value unchanged. -/
def LogGarbler : Garbler (List LeafCall) where
  garble_bool := fun log b => some (b, log ++ [.cBool b])
  garble_char := fun log c => some (c, log ++ [.cChar c])
  garble_u8 := fun log n => some (n, log ++ [.cU .w8 n])
  garble_u16 := fun log n => some (n, log ++ [.cU .w16 n])
  garble_u32 := fun log n => some (n, log ++ [.cU .w32 n])
  garble_u64 := fun log n => some (n, log ++ [.cU .w64 n])
  garble_u128 := fun log n => some (n, log ++ [.cU .w128 n])
  garble_usize := fun log n => some (n, log ++ [.cU .wsize n])
  garble_i8 := fun log n => some (n, log ++ [.cI .w8 n])
  garble_i16 := fun log n => some (n, log ++ [.cI .w16 n])
  garble_i32 := fun log n => some (n, log ++ [.cI .w32 n])
  garble_i64 := fun log n => some (n, log ++ [.cI .w64 n])
  garble_i128 := fun log n => some (n, log ++ [.cI .w128 n])
  garble_isize := fun log n => some (n, log ++ [.cI .wsize n])
  garble_f32 := fun log b => some (b, log ++ [.cF32 b])
  garble_f64 := fun log b => some (b, log ++ [.cF64 b])
  garble_str := fun log cs => some (cs, log ++ [.cStr cs])

mutual

/-- The sequence of per-leaf strategy calls that garbling a value makes, in
order: one call per leaf, `NoGarble` contributes none, composites
concatenate their children's calls in traversal order (for a map entry, key
before value; a `String` is a single `garble_str` call; a `CString` is one
`garble_u8` call per byte). -/
def leafTrace : GValue → List LeafCall
  | .bool b => [.cBool b]
  | .uint w n => [.cU w n]
  | .int w n => [.cI w n]
  | .float32 bits => [.cF32 bits]
  | .float64 bits => [.cF64 bits]
  | .char c => [.cChar c]
  | .str cs => [.cStr cs]
  | .noGarble _ => []
  | .optNone => []
  | .optSome v => leafTrace v
  | .resOk v => leafTrace v
  | .resErr e => leafTrace e
  | .list vs => leafTraceList vs
  | .mp es => leafTraceEntries es
  | .nonZeroU w n => [.cU w n]
  | .nonZeroI w n => [.cI w n]
  | .cstr bytes => bytes.map (.cU .w8 ·)

/-- Traces of a list of values, concatenated in order. -/
def leafTraceList : List GValue → List LeafCall
  | [] => []
  | v :: vs => leafTrace v ++ leafTraceList vs

/-- Traces of map entries in iteration order, key before value. -/
def leafTraceEntries : List (GValue × GValue) → List LeafCall
  | [] => []
  | (k, v) :: es => leafTrace k ++ leafTrace v ++ leafTraceEntries es

end

mutual

/-- Values whose `Garble` impl has `Output = Self` and whose Rust type
invariants hold: no `NoGarble` wrapper anywhere (its output type is the
*inner* type), `NonZero*` payloads are non-zero, `CString` bytes contain no
interior nul.  These are exactly the values for which `garble(v) == v` is
even well-typed in Rust. -/
def selfOutput : GValue → Bool
  | .bool _ => true
  | .uint _ _ => true
  | .int _ _ => true
  | .float32 _ => true
  | .float64 _ => true
  | .char _ => true
  | .str _ => true
  | .noGarble _ => false
  | .optNone => true
  | .optSome v => selfOutput v
  | .resOk v => selfOutput v
  | .resErr e => selfOutput e
  | .list vs => selfOutputList vs
  | .mp es => selfOutputEntries es
  | .nonZeroU _ n => decide (n ≠ 0)
  | .nonZeroI _ n => decide (n ≠ 0)
  | .cstr bytes => bytes.all (fun b => decide (b ≠ 0))

/-- `selfOutput` for every element of a sequence. -/
def selfOutputList : List GValue → Bool
  | [] => true
  | v :: vs => selfOutput v && selfOutputList vs

/-- `selfOutput` for every key and value of a map. -/
def selfOutputEntries : List (GValue × GValue) → Bool
  | [] => true
  | (k, v) :: es => selfOutput k && selfOutput v && selfOutputEntries es

end

/-- The user aggregate of the `nogarble` tests:
`struct Named { a: u32, #[nogarble] b: u32 }`. -/
structure Named where
  a : Nat
  b : Nat
deriving DecidableEq, Repr

/-- The `#[derive(Garble)]` expansion for `Named` (per the expansion contract
exercised by `garble_derive`'s own `test_derive!` snapshots): match the
value, pass the unmarked field `a` through the strategy via the
`garbler.garble` convenience (which for a `u32` field dispatches to
`garble_u32`), rebind the `#[nogarble]` field `b` verbatim, reconstruct. -/
def Named.garble {σ : Type} (g : Garbler σ) (s : σ) (v : Named) : Option (Named × σ) :=
  (g.garble_u32 s v.a).map (fun p => ({ a := p.1, b := v.b }, p.2))

/-- A constant all-zero uniform-draw stream (each draw is `0 ∈ [0,1)`). -/
def zeroDraws : Nat → ℚ := fun _ => 0

/-- A constant all-zero raw-value stream. -/
def zeroNext : Nat → Nat := fun _ => 0

/-- A constant raw-value stream drawing `255` (the `u8` maximum). -/
def maxNext : Nat → Nat := fun _ => 255

/-- Helper: the byte loop of the `CString` impl never emits a nul byte. -/
theorem garbleCBytes_no_nul {σ : Type} (g : Garbler σ) :
    ∀ (bs : List Nat) (s : σ) (out : List Nat) (s' : σ),
      garbleCBytes g s bs = some (out, s') → 0 ∉ out := by
  intro bs
  induction bs with
  | nil =>
      intro s out s' h
      simp [garbleCBytes] at h
      simp [h.1]
  | cons b bs ih =>
      intro s out s' h
      rw [garbleCBytes] at h
      split at h
      · exact absurd h (by simp)
      · rename_i b' s1 hb
        split at h
        · exact absurd h (by simp)
        · rename_i bs' s2 hr
          simp only [Option.some.injEq, Prod.mk.injEq] at h
          obtain ⟨h1, h2⟩ := h
          subst h1
          intro hmem
          rcases List.mem_cons.mp hmem with h0 | h0
          · revert h0
            split <;> omega
          · exact ih s1 bs' s2 hr h0

/-- C1: Opt-out transparency.  For every strategy `g` in every state `s` and
every value `v`, garbling `NoGarble(v)` returns exactly the inner value `v`,
and the strategy's state after the call is the very state `s` it started in
(the impl returns `self.0` without invoking the garbler). -/
theorem c1_optout_transparency : ∀ (σ : Type) (g : Garbler σ) (s : σ) (v : GValue),
    garble g s (.noGarble v) = some (v, s) := by
  intro σ g s v
  rw [garble]

/-- C7: Shape preservation for `Option` and `Result`.  `None` garbles to
`None`; `Some(v)` garbles to `Some` of the garble of `v`; `Ok(v)` to `Ok` of
the garble of `v`; `Err(e)` to `Err` of the garble of `e` — the inhabited
side is preserved in each case, with the strategy threaded inside. -/
theorem c7_shape_preservation :
    (∀ (σ : Type) (g : Garbler σ) (s : σ), garble g s .optNone = some (.optNone, s)) ∧
    (∀ (σ : Type) (g : Garbler σ) (s : σ) (v v' : GValue) (s' : σ),
      garble g s v = some (v', s') → garble g s (.optSome v) = some (.optSome v', s')) ∧
    (∀ (σ : Type) (g : Garbler σ) (s : σ) (v v' : GValue) (s' : σ),
      garble g s v = some (v', s') → garble g s (.resOk v) = some (.resOk v', s')) ∧
    (∀ (σ : Type) (g : Garbler σ) (s : σ) (e e' : GValue) (s' : σ),
      garble g s e = some (e', s') → garble g s (.resErr e) = some (.resErr e', s')) := by
  refine ⟨fun σ g s => by rw [garble], ?_, ?_, ?_⟩ <;>
    · intro σ g s v v' s' h
      rw [garble, h]
      rfl

/-- Witness for C7 at a concrete strategy and inputs. -/
theorem c7_witness :
    garble ZeroGarbler () (.optSome (.bool true)) = some (.optSome (.bool false), ()) ∧
    garble ZeroGarbler () (.resOk (.uint .w8 9)) = some (.resOk (.uint .w8 0), ()) ∧
    garble ZeroGarbler () (.resErr (.char 97)) = some (.resErr (.char 32), ()) :=
  ⟨c7_shape_preservation.2.1 Unit ZeroGarbler () (.bool true) (.bool false) () rfl,
   c7_shape_preservation.2.2.1 Unit ZeroGarbler () (.uint .w8 9) (.uint .w8 0) () rfl,
   c7_shape_preservation.2.2.2 Unit ZeroGarbler () (.char 97) (.char 32) () rfl⟩

/-- C5: Non-zero invariant.  For every strategy and every non-zero wrapper
value (any unsigned or signed width): the wrapper garbles the underlying
integer through the strategy's per-leaf method, rebinding the result to one
exactly when it is zero; consequently the output payload is never zero. -/
theorem c5_nonzero_invariant :
    (∀ (σ : Type) (g : Garbler σ) (s : σ) (w : UWidth) (n : Nat), n ≠ 0 →
      (∀ (m : Nat) (s' : σ), g.garbleU w s n = some (m, s') →
        garble g s (.nonZeroU w n) = some (.nonZeroU w (if m = 0 then 1 else m), s')) ∧
      (∀ (v' : GValue) (s' : σ), garble g s (.nonZeroU w n) = some (v', s') →
        ∃ m, v' = .nonZeroU w m ∧ m ≠ 0)) ∧
    (∀ (σ : Type) (g : Garbler σ) (s : σ) (w : IWidth) (n : Int), n ≠ 0 →
      (∀ (m : Int) (s' : σ), g.garbleI w s n = some (m, s') →
        garble g s (.nonZeroI w n) = some (.nonZeroI w (if m = 0 then 1 else m), s')) ∧
      (∀ (v' : GValue) (s' : σ), garble g s (.nonZeroI w n) = some (v', s') →
        ∃ m, v' = .nonZeroI w m ∧ m ≠ 0)) := by
  constructor
  · intro σ g s w n _
    constructor
    · intro m s' h
      rw [garble, h]
      rfl
    · intro v' s' h
      rw [garble] at h
      cases hg : g.garbleU w s n with
      | none => rw [hg] at h; exact absurd h (by simp)
      | some p =>
          rw [hg] at h
          simp only [Option.map_some', Option.some.injEq, Prod.mk.injEq] at h
          refine ⟨if p.1 = 0 then 1 else p.1, h.1.symm, ?_⟩
          split <;> simp_all
  · intro σ g s w n _
    constructor
    · intro m s' h
      rw [garble, h]
      rfl
    · intro v' s' h
      rw [garble] at h
      cases hg : g.garbleI w s n with
      | none => rw [hg] at h; exact absurd h (by simp)
      | some p =>
          rw [hg] at h
          simp only [Option.map_some', Option.some.injEq, Prod.mk.injEq] at h
          refine ⟨if p.1 = 0 then 1 else p.1, h.1.symm, ?_⟩
          split <;> simp_all

/-- Witness for C5: the `ZeroGarbler` sends the payload to `0`, and the
wrapper rebinds it to `1`, for an unsigned and a signed wrapper. -/
theorem c5_witness :
    garble ZeroGarbler () (.nonZeroU .w8 5) = some (.nonZeroU .w8 1, ()) ∧
    garble ZeroGarbler () (.nonZeroI .w32 (-3)) = some (.nonZeroI .w32 1, ()) :=
  ⟨(c5_nonzero_invariant.1 Unit ZeroGarbler () .w8 5 (by decide)).1 0 () rfl,
   (c5_nonzero_invariant.2 Unit ZeroGarbler () .w32 (-3) (by decide)).1 0 () rfl⟩

/-- C6: C-string invariant.  For every strategy, the `CString` impl garbles
each content byte through the strategy's `u8` method and replaces any
garbled byte equal to zero with `0x3F`; whenever the byte loop completes,
the output contains no interior nul byte, and the final
`CString::new(..).unwrap()` therefore never fails. -/
theorem c6_cstring_invariant : ∀ (σ : Type) (g : Garbler σ) (s : σ) (bs out : List Nat) (s' : σ),
    garbleCBytes g s bs = some (out, s') →
    0 ∉ out ∧ garble g s (.cstr bs) = some (.cstr out, s') := by
  intro σ g s bs out s' h
  have hn := garbleCBytes_no_nul g bs s out s' h
  refine ⟨hn, ?_⟩
  rw [garble, h]
  simp [cstringNew, hn]

/-- Witness for C6: both bytes garble to `0` under the `ZeroGarbler` and are
replaced by `0x3F = 63`. -/
theorem c6_witness : 0 ∉ [63, 63] ∧ garble ZeroGarbler () (.cstr [1, 2]) = some (.cstr [63, 63], ()) :=
  c6_cstring_invariant Unit ZeroGarbler () [1, 2] [63, 63] () rfl

/-- C4: `nogarble` field fidelity.  In the derived impl for
`struct Named { a: u32, #[nogarble] b: u32 }`, for every strategy the marked
field `b` is rebound verbatim (output `b` equals input `b`) while the
unmarked field `a` is exactly what the strategy's `u32` method produced; in
particular `{a: 1, b: 2}` under the `ZeroGarbler` garbles to `{a: 0, b: 2}`. -/
theorem c4_nogarble_field_fidelity :
    (∀ (σ : Type) (g : Garbler σ) (s : σ) (v out : Named) (s' : σ),
      Named.garble g s v = some (out, s') →
      out.b = v.b ∧ g.garble_u32 s v.a = some (out.a, s')) ∧
    Named.garble ZeroGarbler () ⟨1, 2⟩ = some (⟨0, 2⟩, ()) := by
  constructor
  · intro σ g s v out s' h
    rw [Named.garble] at h
    cases hg : g.garble_u32 s v.a with
    | none => rw [hg] at h; exact absurd h (by simp)
    | some p =>
        rw [hg] at h
        simp only [Option.map_some', Option.some.injEq, Prod.mk.injEq] at h
        obtain ⟨h1, h2⟩ := h
        subst h2
        rw [← h1]
        exact ⟨rfl, rfl⟩
  · rfl

/-- Witness for C4 at a concrete strategy and record. -/
theorem c4_witness :
    (⟨0, 7⟩ : Named).b = (⟨5, 7⟩ : Named).b ∧
    ZeroGarbler.garble_u32 () (⟨5, 7⟩ : Named).a = some ((⟨0, 7⟩ : Named).a, ()) :=
  c4_nogarble_field_fidelity.1 Unit ZeroGarbler () ⟨5, 7⟩ ⟨0, 7⟩ () rfl

/-- C2 (code evaluated at the failing input): with rate `1.0` and the random
draw equal to the input, garbling `u8::MAX = 255` reaches `value + 1`, which
the source computes with the plain `+` operator (`u8 => |v| v + 1`), not
`wrapping_add`; the addition overflows, i.e. panics in a debug build
(`none` in this model) instead of wrapping to the minimum as the spec's
"substitute `input + 1` (wrapping)" requires. -/
theorem c2_u8_max_overflow :
    garble (SimpleGarbler.garbler id id) ⟨1, zeroDraws, maxNext, 0⟩ (.uint .w8 255) = none := rfl

/-- Helper: sequence garbling preserves length. -/
theorem garbleList_length {σ : Type} (g : Garbler σ) :
    ∀ (vs : List GValue) (s : σ) (out : List GValue) (s' : σ),
      garbleList g s vs = some (out, s') → out.length = vs.length := by
  intro vs
  induction vs with
  | nil =>
      intro s out s' h
      simp [garbleList] at h
      simp [h.1]
  | cons v vs ih =>
      intro s out s' h
      rw [garbleList] at h
      split at h
      · exact absurd h (by simp)
      · split at h
        · exact absurd h (by simp)
        · rename_i vs' s2 hr
          simp only [Option.some.injEq, Prod.mk.injEq] at h
          obtain ⟨h1, _⟩ := h
          subst h1
          simp [ih _ _ _ hr]

/-- Helper: sequence garbling decomposes over append — the elements of the
first part are garbled first, then the second part continues from the state
the first part ended in (ascending order, strategy threaded left to right). -/
theorem garbleList_append {σ : Type} (g : Garbler σ) :
    ∀ (xs ys : List GValue) (s : σ),
      garbleList g s (xs ++ ys) =
        (garbleList g s xs).bind
          (fun p => (garbleList g p.2 ys).map (fun q => (p.1 ++ q.1, q.2))) := by
  intro xs
  induction xs with
  | nil =>
      intro ys s
      rw [garbleList]
      cases h : garbleList g s ys with
      | none => simp [h]
      | some q => simp [h]
  | cons x xs ih =>
      intro ys s
      rw [List.cons_append, garbleList, garbleList]
      cases hx : garble g s x with
      | none => simp
      | some p =>
          simp only
          rw [ih ys p.2]
          cases hxs : garbleList g p.2 xs with
          | none => simp
          | some q =>
              simp only [Option.some_bind]
              cases hys : garbleList g q.2 ys with
              | none => simp
              | some r => simp

/-- Helper: elementwise characterization of sequence garbling — the output
element at index `i` is the garble of the input element at index `i`,
started from the state obtained by garbling the first `i` elements. -/
theorem garbleList_index {σ : Type} (g : Garbler σ) :
    ∀ (vs : List GValue) (s : σ) (out : List GValue) (s' : σ) (i : Nat),
      garbleList g s vs = some (out, s') → i < vs.length →
      ∃ vi oi si si', vs[i]? = some vi ∧ out[i]? = some oi ∧
        garbleList g s (vs.take i) = some (out.take i, si) ∧
        garble g si vi = some (oi, si') := by
  intro vs
  induction vs with
  | nil =>
      intro s out s' i _ hi
      exact absurd hi (by simp)
  | cons v vs ih =>
      intro s out s' i h hi
      rw [garbleList] at h
      split at h
      · exact absurd h (by simp)
      · rename_i v1 s1 hv
        split at h
        · exact absurd h (by simp)
        · rename_i vs' s2 hr
          simp only [Option.some.injEq, Prod.mk.injEq] at h
          obtain ⟨h1, _⟩ := h
          subst h1
          cases i with
          | zero =>
              exact ⟨v, v1, s, s1, by simp, by simp, by rw [List.take_zero, List.take_zero, garbleList], hv⟩
          | succ j =>
              have hj : j < vs.length := by simpa using hi
              obtain ⟨vi, oi, si, si', e1, e2, e3, e4⟩ := ih s1 vs' s2 j hr hj
              refine ⟨vi, oi, si, si', by simpa using e1, by simpa using e2, ?_, e4⟩
              rw [List.take_succ_cons, List.take_succ_cons, garbleList, hv]
              simp [e3]

/-- C8: Length and order preservation for sequences.  The
`Vec`/`VecDeque`/`LinkedList` impls (and the fixed-size array impl, whose
`self.map` performs the same in-order elementwise traversal) are the
strategy-threaded map over elements: (i) the output has exactly the input's
length; (ii) garbling decomposes over append, the right part continuing from
the state the left part ended in — ascending index order; (iii) the output
element at each index `i` is the garble of the input element at index `i`,
run from the state reached after garbling the first `i` elements. -/
theorem c8_sequence_threaded_map :
    (∀ (σ : Type) (g : Garbler σ) (s : σ) (vs out : List GValue) (s' : σ),
      garbleList g s vs = some (out, s') → out.length = vs.length) ∧
    (∀ (σ : Type) (g : Garbler σ) (xs ys : List GValue) (s : σ),
      garbleList g s (xs ++ ys) =
        (garbleList g s xs).bind
          (fun p => (garbleList g p.2 ys).map (fun q => (p.1 ++ q.1, q.2)))) ∧
    (∀ (σ : Type) (g : Garbler σ) (s : σ) (vs out : List GValue) (s' : σ) (i : Nat),
      garbleList g s vs = some (out, s') → i < vs.length →
      ∃ vi oi si si', vs[i]? = some vi ∧ out[i]? = some oi ∧
        garbleList g s (vs.take i) = some (out.take i, si) ∧
        garble g si vi = some (oi, si')) :=
  ⟨fun σ g s vs out s' h => garbleList_length g vs s out s' h,
   fun σ g xs ys s => garbleList_append g xs ys s,
   fun σ g s vs out s' i h hi => garbleList_index g vs s out s' i h hi⟩

/-- Witness for C8 at a concrete strategy and sequence (length part, with
the garbling hypothesis discharged by evaluation). -/
theorem c8_witness :
    ([GValue.uint .w8 0, GValue.bool false, GValue.char 32] : List GValue).length =
      ([GValue.uint .w8 1, GValue.bool true, GValue.char 99] : List GValue).length :=
  c8_sequence_threaded_map.1 Unit ZeroGarbler ()
    [GValue.uint .w8 1, GValue.bool true, GValue.char 99]
    [GValue.uint .w8 0, GValue.bool false, GValue.char 32] () rfl

/-- Helper: the `CString` byte loop under the logging strategy records one
`u8` call per byte, in order, and keeps every non-nul byte. -/
theorem garbleCBytes_log : ∀ (bs : List Nat) (log : List LeafCall),
    garbleCBytes LogGarbler log bs =
      some (bs.map (fun b => if b = 0 then 0x3F else b), log ++ bs.map (.cU .w8 ·)) := by
  intro bs
  induction bs with
  | nil => intro log; rw [garbleCBytes]; simp
  | cons b bs ih =>
      intro log
      rw [garbleCBytes]
      simp only [ih]
      simp [LogGarbler, List.append_assoc]

/-- Helper: the logging strategy never fails, and garbling any value from
log state `log` ends in log state `log ++ leafTrace v` — the per-leaf calls
of `v` in traversal order appended to the log. -/
theorem log_trace : ∀ (log : List LeafCall) (v : GValue),
    ∃ v', garble LogGarbler log v = some (v', log ++ leafTrace v) := by
  intro log v
  refine garble.induct (g := LogGarbler)
    (motive_1 := fun log v =>
      ∃ v', garble LogGarbler log v = some (v', log ++ leafTrace v))
    (motive_2 := fun log es =>
      ∃ es', garbleEntries LogGarbler log es = some (es', log ++ leafTraceEntries es))
    (motive_3 := fun log vs =>
      ∃ vs', garbleList LogGarbler log vs = some (vs', log ++ leafTraceList vs))
    ?cBool ?cUint ?cInt ?cF32 ?cF64 ?cChar ?cStr ?cNoGarble ?cOptNone ?cOptSome ?cResOk
    ?cResErr ?cList ?cMp ?cNzU ?cNzI ?cCstrNone ?cCstrSome
    ?cLNil ?cLConsNone ?cLConsSomeNone ?cLConsSomeSome
    ?cENil ?cEKeyNone ?cEValNone ?cETailNone ?cESome log v
  case cBool =>
    intro s b
    exact ⟨.bool b, by rw [garble]; simp [LogGarbler, leafTrace]⟩
  case cUint =>
    intro s w n
    exact ⟨.uint w n, by rw [garble]; cases w <;> simp [Garbler.garbleU, LogGarbler, leafTrace]⟩
  case cInt =>
    intro s w n
    exact ⟨.int w n, by rw [garble]; cases w <;> simp [Garbler.garbleI, LogGarbler, leafTrace]⟩
  case cF32 =>
    intro s b
    exact ⟨.float32 b, by rw [garble]; simp [LogGarbler, leafTrace]⟩
  case cF64 =>
    intro s b
    exact ⟨.float64 b, by rw [garble]; simp [LogGarbler, leafTrace]⟩
  case cChar =>
    intro s c
    exact ⟨.char c, by rw [garble]; simp [LogGarbler, leafTrace]⟩
  case cStr =>
    intro s cs
    exact ⟨.str cs, by rw [garble]; simp [LogGarbler, leafTrace]⟩
  case cNoGarble =>
    intro s v
    exact ⟨v, by rw [garble]; simp [leafTrace]⟩
  case cOptNone =>
    intro s
    exact ⟨.optNone, by rw [garble]; simp [leafTrace]⟩
  case cOptSome =>
    intro s v ih
    obtain ⟨v', hv⟩ := ih
    exact ⟨.optSome v', by rw [garble, hv]; simp [leafTrace]⟩
  case cResOk =>
    intro s v ih
    obtain ⟨v', hv⟩ := ih
    exact ⟨.resOk v', by rw [garble, hv]; simp [leafTrace]⟩
  case cResErr =>
    intro s e ih
    obtain ⟨e', he⟩ := ih
    exact ⟨.resErr e', by rw [garble, he]; simp [leafTrace]⟩
  case cList =>
    intro s vs ih
    obtain ⟨vs', hv⟩ := ih
    exact ⟨.list vs', by rw [garble, hv]; simp [leafTrace]⟩
  case cMp =>
    intro s es ih
    obtain ⟨es', he⟩ := ih
    exact ⟨.mp es', by rw [garble, he]; simp [leafTrace]⟩
  case cNzU =>
    intro s w n
    refine ⟨.nonZeroU w (if n = 0 then 1 else n), ?_⟩
    rw [garble]
    cases w <;> simp [Garbler.garbleU, LogGarbler, leafTrace]
  case cNzI =>
    intro s w n
    refine ⟨.nonZeroI w (if n = 0 then 1 else n), ?_⟩
    rw [garble]
    cases w <;> simp [Garbler.garbleI, LogGarbler, leafTrace]
  case cCstrNone =>
    intro s a h
    rw [garbleCBytes_log] at h
    exact absurd h (by simp)
  case cCstrSome =>
    intro s a out s' h
    refine ⟨.cstr (a.map fun b => if b = 0 then 0x3F else b), ?_⟩
    rw [garble, garbleCBytes_log]
    simp [cstringNew, leafTrace]
    intro x _
    split <;> omega
  case cLNil =>
    intro s
    exact ⟨[], by rw [garbleList]; simp [leafTraceList]⟩
  case cLConsNone =>
    intro s v vs hv ih
    obtain ⟨v', h⟩ := ih
    exact absurd (hv ▸ h) (by simp)
  case cLConsSomeNone =>
    intro s v vs v' s' hv hl ih1 ih2
    obtain ⟨vs', h⟩ := ih2
    exact absurd (hl ▸ h) (by simp)
  case cLConsSomeSome =>
    intro s v vs v' s' hv vs' s'' hl ih1 ih2
    obtain ⟨v0, h1⟩ := ih1
    obtain ⟨vs0, h2⟩ := ih2
    rw [hv] at h1
    rw [hl] at h2
    simp only [Option.some.injEq, Prod.mk.injEq] at h1 h2
    obtain ⟨e1, e2⟩ := h1
    obtain ⟨e3, e4⟩ := h2
    refine ⟨v' :: vs', ?_⟩
    rw [garbleList]
    simp only [hv, hl]
    simp [leafTraceList, e4, e2, List.append_assoc]
  case cENil =>
    intro s
    exact ⟨[], by rw [garbleEntries]; simp [leafTraceEntries]⟩
  case cEKeyNone =>
    intro s k v es hk ih
    obtain ⟨k', h⟩ := ih
    exact absurd (hk ▸ h) (by simp)
  case cEValNone =>
    intro s k v es k' s' hk hv ih1 ih2
    obtain ⟨v0, h⟩ := ih2
    exact absurd (hv ▸ h) (by simp)
  case cETailNone =>
    intro s k v es k' s' hk v' s'' hv he ih1 ih2 ih3
    obtain ⟨es0, h⟩ := ih3
    exact absurd (he ▸ h) (by simp)
  case cESome =>
    intro s k v es k' s' hk v' s'' hv es' s''' he ih1 ih2 ih3
    obtain ⟨k0, h1⟩ := ih1
    obtain ⟨v0, h2⟩ := ih2
    obtain ⟨es0, h3⟩ := ih3
    rw [hk] at h1
    rw [hv] at h2
    rw [he] at h3
    simp only [Option.some.injEq, Prod.mk.injEq] at h1 h2 h3
    obtain ⟨e1, e2⟩ := h1
    obtain ⟨e3, e4⟩ := h2
    obtain ⟨e5, e6⟩ := h3
    refine ⟨(k', v') :: es', ?_⟩
    rw [garbleEntries]
    simp only [hk, hv, he]
    simp [leafTraceEntries, e6, e4, e2, List.append_assoc]

/-- C9: Map traversal order.  (i) For every strategy, garbling a non-empty
map garbles the head entry's key first, then its value from the key's
resulting state, then the remaining entries from the value's resulting
state — entries in iteration order, key strictly before value within each
entry.  (ii) A strategy observing its own call sequence (the logging
strategy, whose state is its call log) ends one map garble with exactly
`leafTraceEntries` appended to its log: per entry in order, the key's leaf
calls followed by the value's leaf calls. -/
theorem c9_map_traversal_order :
    (∀ (σ : Type) (g : Garbler σ) (s : σ) (k v : GValue) (es : List (GValue × GValue)),
      garbleEntries g s ((k, v) :: es) =
        (garble g s k).bind (fun pk => (garble g pk.2 v).bind (fun pv =>
          (garbleEntries g pv.2 es).map (fun pes => ((pk.1, pv.1) :: pes.1, pes.2))))) ∧
    (∀ (log : List LeafCall) (es : List (GValue × GValue)),
      ∃ out, garble LogGarbler log (.mp es) = some (out, log ++ leafTraceEntries es)) := by
  constructor
  · intro σ g s k v es
    rw [garbleEntries]
    cases hk : garble g s k with
    | none => simp
    | some pk =>
        obtain ⟨k', s1⟩ := pk
        cases hv : garble g s1 v with
        | none => simp [hv]
        | some pv =>
            obtain ⟨v', s2⟩ := pv
            cases he : garbleEntries g s2 es with
            | none => simp [hv, he]
            | some pes => simp [hv, he]
  · intro log es
    obtain ⟨v', h⟩ := log_trace log (.mp es)
    rw [leafTrace] at h
    exact ⟨v', h⟩

/-- Helper: at rate `0`, `should_garble` always answers `false` (the uniform
draw, being nonnegative, is never `< 0`), consuming one draw. -/
theorem shouldGarble_rate0 (s : SimpleGarbler) (h0 : s.rate = 0) (hd : 0 ≤ s.draws s.k) :
    s.shouldGarble = some (false, { s with k := s.k + 1 }) := by
  have hlt : ¬ s.draws s.k < s.rate := by rw [h0]; exact not_lt.mpr hd
  simp [SimpleGarbler.shouldGarble, h0, hlt]
  exact hd

/-- Helper: at rate `0` the unsigned-integer perturbation is the identity. -/
theorem simpleUint_rate0 (bits : Nat) (s : SimpleGarbler) (v : Nat)
    (h0 : s.rate = 0) (hd : ∀ i, 0 ≤ s.draws i) :
    simpleUint bits s v = some (v, { s with k := s.k + 1 }) := by
  rw [simpleUint, shouldGarble_rate0 s h0 (hd _)]
  simp

/-- Helper: at rate `0` the signed-integer perturbation is the identity. -/
theorem simpleInt_rate0 (bits : Nat) (s : SimpleGarbler) (v : Int)
    (h0 : s.rate = 0) (hd : ∀ i, 0 ≤ s.draws i) :
    simpleInt bits s v = some (v, { s with k := s.k + 1 }) := by
  rw [simpleInt, shouldGarble_rate0 s h0 (hd _)]
  simp

/-- Helper: at rate `0` the float perturbation is the identity. -/
theorem simpleFloat_rate0 (sq : Nat → Nat) (s : SimpleGarbler) (v : Nat)
    (h0 : s.rate = 0) (hd : ∀ i, 0 ≤ s.draws i) :
    simpleFloat sq s v = some (v, { s with k := s.k + 1 }) := by
  rw [simpleFloat, shouldGarble_rate0 s h0 (hd _)]
  simp

/-- Helper: at rate `0` the char perturbation is the identity. -/
theorem simpleChar_rate0 (s : SimpleGarbler) (v : Nat)
    (h0 : s.rate = 0) (hd : ∀ i, 0 ≤ s.draws i) :
    simpleChar s v = some (v, { s with k := s.k + 1 }) := by
  rw [simpleChar, shouldGarble_rate0 s h0 (hd _)]
  simp

/-- Helper: at rate `0` the string perturbation keeps every character
(consuming one decision per character). -/
theorem simpleStr_rate0 : ∀ (cs : List Nat) (s : SimpleGarbler),
    s.rate = 0 → (∀ i, 0 ≤ s.draws i) →
    simpleStr s cs = some (cs, { s with k := s.k + cs.length }) := by
  intro cs
  induction cs with
  | nil => intro s _ _; simp [simpleStr]
  | cons c cs ih =>
      intro s h0 hd
      rw [simpleStr, shouldGarble_rate0 s h0 (hd _)]
      simp [ih { s with k := s.k + 1 } h0 hd, Nat.add_assoc, Nat.add_comm 1 cs.length]

/-- Helper: at rate `0` the `CString` byte loop keeps every (non-nul) byte. -/
theorem garbleCBytes_rate0 (sq32 sq64 : Nat → Nat) : ∀ (bs : List Nat) (s : SimpleGarbler),
    s.rate = 0 → (∀ i, 0 ≤ s.draws i) → (∀ b ∈ bs, b ≠ 0) →
    garbleCBytes (SimpleGarbler.garbler sq32 sq64) s bs =
      some (bs, { s with k := s.k + bs.length }) := by
  intro bs
  induction bs with
  | nil => intro s _ _ _; simp [garbleCBytes]
  | cons b bs ih =>
      intro s h0 hd hnz
      rw [garbleCBytes]
      have hu : (SimpleGarbler.garbler sq32 sq64).garble_u8 s b =
          some (b, { s with k := s.k + 1 }) := by
        simp [SimpleGarbler.garbler, simpleUint_rate0 8 s b h0 hd]
      rw [hu]
      have hb : b ≠ 0 := hnz b (List.mem_cons_self b bs)
      simp [ih { s with k := s.k + 1 } h0 hd (fun x hx => hnz x (List.mem_cons_of_mem b hx)),
        hb, Nat.add_assoc, Nat.add_comm 1 bs.length]

/-- Helper: at rate `0` (with nonnegative uniform draws) the reference
strategy garbles every self-output value to itself, only advancing the RNG
counter. -/
theorem rate0_garble (sq32 sq64 : Nat → Nat) :
    ∀ (s : SimpleGarbler) (v : GValue), s.rate = 0 → (∀ i, 0 ≤ s.draws i) →
      selfOutput v = true →
      ∃ k', garble (SimpleGarbler.garbler sq32 sq64) s v = some (v, { s with k := k' }) := by
  intro s v
  refine garble.induct (g := SimpleGarbler.garbler sq32 sq64)
    (motive_1 := fun s v => s.rate = 0 → (∀ i, 0 ≤ s.draws i) → selfOutput v = true →
      ∃ k', garble (SimpleGarbler.garbler sq32 sq64) s v = some (v, { s with k := k' }))
    (motive_2 := fun s es => s.rate = 0 → (∀ i, 0 ≤ s.draws i) → selfOutputEntries es = true →
      ∃ k', garbleEntries (SimpleGarbler.garbler sq32 sq64) s es = some (es, { s with k := k' }))
    (motive_3 := fun s vs => s.rate = 0 → (∀ i, 0 ≤ s.draws i) → selfOutputList vs = true →
      ∃ k', garbleList (SimpleGarbler.garbler sq32 sq64) s vs = some (vs, { s with k := k' }))
    ?cBool ?cUint ?cInt ?cF32 ?cF64 ?cChar ?cStr ?cNoGarble ?cOptNone ?cOptSome ?cResOk
    ?cResErr ?cList ?cMp ?cNzU ?cNzI ?cCstrNone ?cCstrSome
    ?cLNil ?cLConsNone ?cLConsSomeNone ?cLConsSomeSome
    ?cENil ?cEKeyNone ?cEValNone ?cETailNone ?cESome s v
  case cBool =>
    intro s b h0 hd _
    refine ⟨s.k + 1, ?_⟩
    rw [garble]
    cases b <;> simp [SimpleGarbler.garbler, shouldGarble_rate0 s h0 (hd _)]
  case cUint =>
    intro s w n h0 hd _
    refine ⟨s.k + 1, ?_⟩
    rw [garble]
    cases w <;> simp [Garbler.garbleU, SimpleGarbler.garbler, simpleUint_rate0, h0, hd]
  case cInt =>
    intro s w n h0 hd _
    refine ⟨s.k + 1, ?_⟩
    rw [garble]
    cases w <;> simp [Garbler.garbleI, SimpleGarbler.garbler, simpleInt_rate0, h0, hd]
  case cF32 =>
    intro s b h0 hd _
    refine ⟨s.k + 1, ?_⟩
    rw [garble]
    simp [SimpleGarbler.garbler, simpleFloat_rate0, h0, hd]
  case cF64 =>
    intro s b h0 hd _
    refine ⟨s.k + 1, ?_⟩
    rw [garble]
    simp [SimpleGarbler.garbler, simpleFloat_rate0, h0, hd]
  case cChar =>
    intro s c h0 hd _
    refine ⟨s.k + 1, ?_⟩
    rw [garble]
    simp [SimpleGarbler.garbler, simpleChar_rate0, h0, hd]
  case cStr =>
    intro s cs h0 hd _
    refine ⟨s.k + cs.length, ?_⟩
    rw [garble]
    simp [SimpleGarbler.garbler, simpleStr_rate0, h0, hd]
  case cNoGarble =>
    intro s v h0 hd hsel
    rw [selfOutput] at hsel
    exact absurd hsel (by simp)
  case cOptNone =>
    intro s h0 hd _
    exact ⟨s.k, by rw [garble]⟩
  case cOptSome =>
    intro s v ih h0 hd hsel
    rw [selfOutput] at hsel
    obtain ⟨k', h⟩ := ih h0 hd hsel
    exact ⟨k', by rw [garble, h]; rfl⟩
  case cResOk =>
    intro s v ih h0 hd hsel
    rw [selfOutput] at hsel
    obtain ⟨k', h⟩ := ih h0 hd hsel
    exact ⟨k', by rw [garble, h]; rfl⟩
  case cResErr =>
    intro s e ih h0 hd hsel
    rw [selfOutput] at hsel
    obtain ⟨k', h⟩ := ih h0 hd hsel
    exact ⟨k', by rw [garble, h]; rfl⟩
  case cList =>
    intro s vs ih h0 hd hsel
    rw [selfOutput] at hsel
    obtain ⟨k', h⟩ := ih h0 hd hsel
    exact ⟨k', by rw [garble, h]; rfl⟩
  case cMp =>
    intro s es ih h0 hd hsel
    rw [selfOutput] at hsel
    obtain ⟨k', h⟩ := ih h0 hd hsel
    exact ⟨k', by rw [garble, h]; rfl⟩
  case cNzU =>
    intro s w n h0 hd hsel
    rw [selfOutput] at hsel
    have hn : n ≠ 0 := by simpa using hsel
    refine ⟨s.k + 1, ?_⟩
    rw [garble]
    cases w <;> simp [Garbler.garbleU, SimpleGarbler.garbler, simpleUint_rate0, h0, hd, hn]
  case cNzI =>
    intro s w n h0 hd hsel
    rw [selfOutput] at hsel
    have hn : n ≠ 0 := by simpa using hsel
    refine ⟨s.k + 1, ?_⟩
    rw [garble]
    cases w <;> simp [Garbler.garbleI, SimpleGarbler.garbler, simpleInt_rate0, h0, hd, hn]
  case cCstrNone =>
    intro s a hnone h0 hd hsel
    rw [selfOutput] at hsel
    have hnz : ∀ b ∈ a, b ≠ 0 := by simpa [List.all_eq_true] using hsel
    rw [garbleCBytes_rate0 sq32 sq64 a s h0 hd hnz] at hnone
    exact absurd hnone (by simp)
  case cCstrSome =>
    intro s a out s' _ h0 hd hsel
    rw [selfOutput] at hsel
    have hnz : ∀ b ∈ a, b ≠ 0 := by simpa [List.all_eq_true] using hsel
    refine ⟨s.k + a.length, ?_⟩
    rw [garble, garbleCBytes_rate0 sq32 sq64 a s h0 hd hnz]
    have h0m : (0 : Nat) ∉ a := fun hm => hnz 0 hm rfl
    simp [cstringNew, h0m]
  case cLNil =>
    intro s h0 hd _
    exact ⟨s.k, by rw [garbleList]⟩
  case cLConsNone =>
    intro s v vs hnone ih h0 hd hsel
    simp only [selfOutputList, Bool.and_eq_true] at hsel
    obtain ⟨k', h⟩ := ih h0 hd hsel.1
    rw [h] at hnone
    exact absurd hnone (by simp)
  case cLConsSomeNone =>
    intro s v vs v' s' hv hlnone ih1 ih2 h0 hd hsel
    simp only [selfOutputList, Bool.and_eq_true] at hsel
    obtain ⟨k1, h1⟩ := ih1 h0 hd hsel.1
    rw [hv] at h1
    simp only [Option.some.injEq, Prod.mk.injEq] at h1
    obtain ⟨e1, e2⟩ := h1
    subst e2
    obtain ⟨k2, h2⟩ := ih2 h0 hd hsel.2
    rw [h2] at hlnone
    exact absurd hlnone (by simp)
  case cLConsSomeSome =>
    intro s v vs v' s' hv vs' s'' hl ih1 ih2 h0 hd hsel
    simp only [selfOutputList, Bool.and_eq_true] at hsel
    obtain ⟨k1, h1⟩ := ih1 h0 hd hsel.1
    rw [hv] at h1
    simp only [Option.some.injEq, Prod.mk.injEq] at h1
    obtain ⟨e1, e2⟩ := h1
    subst e2
    obtain ⟨k2, h2⟩ := ih2 h0 hd hsel.2
    rw [hl] at h2
    simp only [Option.some.injEq, Prod.mk.injEq] at h2
    obtain ⟨e3, e4⟩ := h2
    refine ⟨k2, ?_⟩
    rw [garbleList]
    simp only [hv, hl]
    simp [e1, e3, e4]
  case cENil =>
    intro s h0 hd _
    exact ⟨s.k, by rw [garbleEntries]⟩
  case cEKeyNone =>
    intro s k v es hnone ih h0 hd hsel
    simp only [selfOutputEntries, Bool.and_eq_true] at hsel
    obtain ⟨⟨hks, hvs⟩, hes⟩ := hsel
    obtain ⟨k', h⟩ := ih h0 hd hks
    rw [h] at hnone
    exact absurd hnone (by simp)
  case cEValNone =>
    intro s k v es k' s' hk hvnone ih1 ih2 h0 hd hsel
    simp only [selfOutputEntries, Bool.and_eq_true] at hsel
    obtain ⟨⟨hks, hvs⟩, hes⟩ := hsel
    obtain ⟨k1, h1⟩ := ih1 h0 hd hks
    rw [hk] at h1
    simp only [Option.some.injEq, Prod.mk.injEq] at h1
    obtain ⟨e1, e2⟩ := h1
    subst e2
    obtain ⟨k2, h2⟩ := ih2 h0 hd hvs
    rw [h2] at hvnone
    exact absurd hvnone (by simp)
  case cETailNone =>
    intro s k v es k' s' hk v' s'' hv hesnone ih1 ih2 ih3 h0 hd hsel
    simp only [selfOutputEntries, Bool.and_eq_true] at hsel
    obtain ⟨⟨hks, hvs⟩, hes⟩ := hsel
    obtain ⟨k1, h1⟩ := ih1 h0 hd hks
    rw [hk] at h1
    simp only [Option.some.injEq, Prod.mk.injEq] at h1
    obtain ⟨e1, e2⟩ := h1
    subst e2
    obtain ⟨k2, h2⟩ := ih2 h0 hd hvs
    rw [hv] at h2
    simp only [Option.some.injEq, Prod.mk.injEq] at h2
    obtain ⟨e3, e4⟩ := h2
    subst e4
    obtain ⟨k3, h3⟩ := ih3 h0 hd hes
    rw [h3] at hesnone
    exact absurd hesnone (by simp)
  case cESome =>
    intro s k v es k' s' hk v' s'' hv es' s''' hes ih1 ih2 ih3 h0 hd hsel
    simp only [selfOutputEntries, Bool.and_eq_true] at hsel
    obtain ⟨⟨hks, hvs⟩, hestl⟩ := hsel
    obtain ⟨k1, h1⟩ := ih1 h0 hd hks
    rw [hk] at h1
    simp only [Option.some.injEq, Prod.mk.injEq] at h1
    obtain ⟨e1, e2⟩ := h1
    subst e2
    obtain ⟨k2, h2⟩ := ih2 h0 hd hvs
    rw [hv] at h2
    simp only [Option.some.injEq, Prod.mk.injEq] at h2
    obtain ⟨e3, e4⟩ := h2
    subst e4
    obtain ⟨k3, h3⟩ := ih3 h0 hd hestl
    rw [hes] at h3
    simp only [Option.some.injEq, Prod.mk.injEq] at h3
    obtain ⟨e5, e6⟩ := h3
    refine ⟨k3, ?_⟩
    rw [garbleEntries]
    simp only [hk, hv, hes]
    simp [e1, e3, e5, e6]

/-- C3: Rate 0 is the identity.  With the reference strategy at rate `0.0`
(uniform draws being nonnegative, `should_garble` is always false), garbling
any self-output value — every leaf (bool, each integer width, floats, char,
String) and every composite built from such leaves — returns a value equal
to the input, for any interpretation of the float arithmetic; the strategy
state keeps its rate and draw stream (only the RNG advances).  In
particular the S1 scenario: input `128u64` at rate `0.0` yields `128u64`. -/
theorem c3_rate0_identity :
    (∀ (sq32 sq64 : Nat → Nat) (s : SimpleGarbler) (v : GValue),
      s.rate = 0 → (∀ i, 0 ≤ s.draws i) → selfOutput v = true →
      ∃ s', garble (SimpleGarbler.garbler sq32 sq64) s v = some (v, s') ∧
        s'.rate = s.rate ∧ s'.draws = s.draws) ∧
    garble (SimpleGarbler.garbler id id) (SimpleGarbler.new 0 zeroDraws zeroNext)
        (.uint .w64 128) =
      some (.uint .w64 128, ⟨0, zeroDraws, zeroNext, 1⟩) := by
  constructor
  · intro sq32 sq64 s v h0 hd hsel
    obtain ⟨k', h⟩ := rate0_garble sq32 sq64 s v h0 hd hsel
    exact ⟨{ s with k := k' }, h, rfl, rfl⟩
  · rfl

/-- Witness for C3 at a concrete rate-0 strategy state and a composite
input (an option of a list of leaves). -/
theorem c3_witness :
    ∃ s', garble (SimpleGarbler.garbler id id) ⟨0, zeroDraws, zeroNext, 0⟩
        (.optSome (.list [.bool true, .str [104, 105]])) =
      some (.optSome (.list [.bool true, .str [104, 105]]), s') ∧
      s'.rate = 0 ∧ s'.draws = zeroDraws :=
  c3_rate0_identity.1 id id ⟨0, zeroDraws, zeroNext, 0⟩
    (.optSome (.list [.bool true, .str [104, 105]])) rfl (fun _ => le_refl 0) rfl

/-- Helper: `gen_bool` (and hence `should_garble`) panics whenever the
stored rate is outside `[0, 1]`. -/
theorem shouldGarble_out_of_range (s : SimpleGarbler) (h : s.rate < 0 ∨ 1 < s.rate) :
    s.shouldGarble = none := by
  rw [SimpleGarbler.shouldGarble, if_neg]
  rcases h with h | h
  · exact fun hc => absurd hc.1 (not_le.mpr h)
  · exact fun hc => absurd hc.2 (not_le.mpr h)

/-- C10 (counterexample): the claim says that with an out-of-range rate
*any* leaf garble with a non-`NoGarble` value panics at the perturbation
decision; but `garble_str` only consults `should_garble` per character, so
the empty string — a leaf value, not wrapped in `NoGarble` — garbles
successfully even at rate `100.0`. -/
theorem c10_counterexample :
    (1 : ℚ) < (SimpleGarbler.new 100 zeroDraws zeroNext).rate ∧
    garble (SimpleGarbler.garbler id id) (SimpleGarbler.new 100 zeroDraws zeroNext)
        (.str []) =
      some (.str [], SimpleGarbler.new 100 zeroDraws zeroNext) :=
  ⟨by norm_num [SimpleGarbler.new], rfl⟩

/-- C10 (amended): `SimpleGarbler::new` stores any rate without clamping or
rejecting; for a rate `r < 0` or `r > 1`, every leaf garble that reaches a
perturbation decision panics (`gen_bool` requires a probability in
`[0, 1]`): every bool/integer/float/char leaf and every *non-empty* string
does; garbling the empty string makes no perturbation decision and returns
it unchanged, and `NoGarble` garbling never consults the strategy at all. -/
theorem c10_out_of_range_rate :
    (∀ (r : ℚ) (d : Nat → ℚ) (n : Nat → Nat), (SimpleGarbler.new r d n).rate = r) ∧
    (∀ (sq32 sq64 : Nat → Nat) (s : SimpleGarbler), s.rate < 0 ∨ 1 < s.rate →
      (∀ b, garble (SimpleGarbler.garbler sq32 sq64) s (.bool b) = none) ∧
      (∀ w n, garble (SimpleGarbler.garbler sq32 sq64) s (.uint w n) = none) ∧
      (∀ w n, garble (SimpleGarbler.garbler sq32 sq64) s (.int w n) = none) ∧
      (∀ b, garble (SimpleGarbler.garbler sq32 sq64) s (.float32 b) = none) ∧
      (∀ b, garble (SimpleGarbler.garbler sq32 sq64) s (.float64 b) = none) ∧
      (∀ c, garble (SimpleGarbler.garbler sq32 sq64) s (.char c) = none) ∧
      (∀ c cs, garble (SimpleGarbler.garbler sq32 sq64) s (.str (c :: cs)) = none) ∧
      garble (SimpleGarbler.garbler sq32 sq64) s (.str []) = some (.str [], s) ∧
      (∀ v, garble (SimpleGarbler.garbler sq32 sq64) s (.noGarble v) = some (v, s))) := by
  refine ⟨fun r d n => rfl, ?_⟩
  intro sq32 sq64 s h
  have hsg := shouldGarble_out_of_range s h
  refine ⟨?_, ?_, ?_, ?_, ?_, ?_, ?_, ?_, ?_⟩
  · intro b
    rw [garble]
    simp [SimpleGarbler.garbler, hsg]
  · intro w n
    rw [garble]
    cases w <;> simp [Garbler.garbleU, SimpleGarbler.garbler, simpleUint, hsg]
  · intro w n
    rw [garble]
    cases w <;> simp [Garbler.garbleI, SimpleGarbler.garbler, simpleInt, hsg]
  · intro b
    rw [garble]
    simp [SimpleGarbler.garbler, simpleFloat, hsg]
  · intro b
    rw [garble]
    simp [SimpleGarbler.garbler, simpleFloat, hsg]
  · intro c
    rw [garble]
    simp [SimpleGarbler.garbler, simpleChar, hsg]
  · intro c cs
    rw [garble]
    simp only [SimpleGarbler.garbler]
    rw [simpleStr, hsg]
    rfl
  · rw [garble]
    simp only [SimpleGarbler.garbler]
    rw [simpleStr]
    rfl
  · intro v
    rw [garble]

/-- Witness for the amended C10 at rate `100.0`: a `u8` leaf garble panics,
while the empty string and a `NoGarble` value pass through unchanged. -/
theorem c10_witness :
    garble (SimpleGarbler.garbler id id) ⟨100, zeroDraws, zeroNext, 0⟩ (.uint .w8 7) = none ∧
    garble (SimpleGarbler.garbler id id) ⟨100, zeroDraws, zeroNext, 0⟩ (.str []) =
      some (.str [], ⟨100, zeroDraws, zeroNext, 0⟩) :=
  ⟨(c10_out_of_range_rate.2 id id ⟨100, zeroDraws, zeroNext, 0⟩
      (Or.inr (by norm_num))).2.1 .w8 7,
   (c10_out_of_range_rate.2 id id ⟨100, zeroDraws, zeroNext, 0⟩
      (Or.inr (by norm_num))).2.2.2.2.2.2.2.1⟩
